import Mathlib

/-!
Verification development for the zealmcp docset server.

The development shallowly embeds the core logic of the repository:

* `docsets.py` — docset discovery (`discover_docsets`, `_safe_docset_id`),
  index search (`search_docset` and its `score` ranking), safe content
  resolution (`load_entry_html`) and truncation (`truncate_text`);
* `server.py` — the `_search` dispatcher (limit clamping, empty-query
  short-circuit, named-docset lookup and the "all" fan-out);
* `html_text.py` — `html_to_text` extraction (tag scrubbing, line
  normalisation).

Python strings are modelled as Lean `String`s, operated on through their
character lists (Python indexes/slices by characters, as `List Char` does).
`str.lower`, `str.isalnum` and whitespace tests are modelled with Lean's
ASCII-level `Char` primitives.  Filesystem paths are modelled as lists of
path segments; `Path.resolve()` is modelled as the usual lexical
normalisation (".." pops a segment, "." and empty segments vanish) —
symlink indirection is outside the model.  The filesystem itself, the
sqlite index and the HTML parser are external collaborators and enter as
explicit parameters (a partial map from canonical paths to regular-file
contents, a row oracle, a parsed document forest).
-/

namespace ZealMcp

/-! ### Python string primitives -/

/-- Model of Python `str.strip()` on a character list: drop leading and
trailing whitespace. -/
def pyStripChars (cs : List Char) : List Char :=
  ((cs.dropWhile Char.isWhitespace).reverse.dropWhile Char.isWhitespace).reverse

/-- Model of Python `str.strip()`. -/
def pyStrip (s : String) : String :=
  String.mk (pyStripChars s.data)

/-- Model of Python `str.rstrip()` on a character list: drop trailing
whitespace. -/
def pyRstripChars (cs : List Char) : List Char :=
  (cs.reverse.dropWhile Char.isWhitespace).reverse

/-- Model of Python `str.lower()` (ASCII level). -/
def pyLower (s : String) : List Char :=
  s.data.map Char.toLower

/-- Lexicographic code-point comparison of character lists — the ordering
Python uses to compare strings (`sorted`, `<`). -/
def charsLe : List Char → List Char → Bool
  | [], _ => true
  | _ :: _, [] => false
  | a :: as, b :: bs =>
    if a < b then true
    else if b < a then false
    else charsLe as bs

/-- Model of Python `haystack.find(needle)` on character lists: index of the
first occurrence of `pat`, or `none` when `pat` does not occur (Python
returns `-1`).  Like Python, the empty pattern is found at index 0. -/
def firstOccur (pat : List Char) : List Char → Option Nat
  | [] => if pat.isPrefixOf [] then some 0 else none
  | c :: t => if pat.isPrefixOf (c :: t) then some 0 else (firstOccur pat t).map (· + 1)

/-- Model of Python `needle in haystack` on strings (substring test). -/
def containsSub (pat s : String) : Bool :=
  (firstOccur pat.data s.data).isSome

/-- Split a character list on a separator character; mirrors Python
`str.split(sep)`: `n` separators produce `n + 1` fields. -/
def splitOnChar (sep : Char) : List Char → List (List Char)
  | [] => [[]]
  | c :: t =>
    if c = sep then [] :: splitOnChar sep t
    else
      match splitOnChar sep t with
      | [] => [[c]]
      | l :: ls => (c :: l) :: ls

/-- Model of Python `str.splitlines()` for newline-separated text: like
splitting on a newline, except that a trailing newline does not produce a
trailing empty line. -/
def pySplitlines (cs : List Char) : List (List Char) :=
  let ls := splitOnChar '\n' cs
  if ls.getLast? = some [] then ls.dropLast else ls

/-- Model of a Python int slice `l[:n]`: a nonnegative bound keeps the first
`n` elements, a negative bound drops `-n` elements from the end. -/
def pySlice {α : Type} (l : List α) (n : Int) : List α :=
  if 0 ≤ n then l.take n.toNat else l.take (l.length - (-n).toNat)

/-! ### Paths (`pathlib` model)

A filesystem path is a list of segments of an absolute path.  Joining a
relative string onto a path appends its non-empty, non-"." components
(`PurePath` drops those); `resolvePath` performs the lexical part of
`Path.resolve()`.  With canonical segment lists, `p ∈ full.parents ∨ full = p`
is exactly `p.isPrefixOf full`. -/

/-- Components of a relative path string, as produced by `PurePath`: split
on `/`, dropping empty and `"."` components. -/
def pathSegs (rel : String) : List String :=
  ((splitOnChar '/' rel.data).map String.mk).filter (fun s => s ≠ "" && s ≠ ".")

/-- One step of lexical path normalisation. -/
def resolveStep (acc : List String) (s : String) : List String :=
  if s = ".." then acc.dropLast
  else if s = "." || s = "" then acc
  else acc ++ [s]

/-- Lexical model of `Path.resolve()`: normalise a segment list into a
canonical absolute path (no `".."`, `"."` or empty segments). -/
def resolvePath (segs : List String) : List String :=
  segs.foldl resolveStep []

/-! ### Data model (`docsets.py`) -/

/-- Embedding of the `Docset` dataclass.  Paths are segment lists. -/
structure Docset where
  id : String
  name : String
  root : List String
  dsidxPath : List String
  documentsPath : List String
deriving DecidableEq, Repr

/-- Embedding of the `SearchResult` dataclass. -/
structure SearchResult where
  docsetId : String
  docsetName : String
  title : String
  entryType : Option String
  path : String
  sourceUri : String
deriving DecidableEq, Repr

/-- Rows of the `searchIndex` table: `(name, type, path)`. -/
structure IndexRow where
  name : String
  type : Option String
  path : String
deriving DecidableEq, Repr

/-! ### Content resolver (`load_entry_html`) -/

/-- Failure conditions of `load_entry_html`: `RuntimeError("Invalid entry
path")` versus `FileNotFoundError`. -/
inductive LoadError where
  | invalidPath : LoadError
  | notFound : LoadError
deriving DecidableEq, Repr

/-- Embedding of the path clean-up at the top of `load_entry_html`:
`path.lstrip("/")`, then `.split("?", 1)[0].split("#", 1)[0]`. -/
def cleanRelPath (path : String) : String :=
  String.mk (((path.data.dropWhile (· == '/')).takeWhile (· != '?')).takeWhile (· != '#'))

/-- Embedding of `load_entry_html(docset, path)`.  `fs` stands for the real
filesystem: it maps a canonical path to `some contents` exactly when that
path is an existing regular file (`full.exists() and full.is_file()`,
followed by `full.read_text(...)`). -/
def loadEntryHtml (d : Docset) (fs : List String → Option String) (path : String) :
    Except LoadError (String × List String) :=
  let rel := cleanRelPath path
  let full := resolvePath (d.documentsPath ++ pathSegs rel)
  let docsRoot := resolvePath d.documentsPath
  if docsRoot.isPrefixOf full then
    match fs full with
    | some content => .ok (content, full)
    | none => .error .notFound
  else .error .invalidPath

/-! ### Truncation (`truncate_text`) -/

/-- Embedding of `truncate_text(text, max_chars)`. -/
def truncateText (text : String) (maxChars : Int) : String :=
  if maxChars ≤ 0 || (text.length : Int) ≤ maxChars then text
  else String.mk (pyRstripChars (text.data.take maxChars.toNat)) ++ "\n\n[TRUNCATED]"

/-! ### Search engine (`search_docset`) -/

/-- Embedding of the inner `score(name)` function of `search_docset`,
with the query made explicit.  Python compares lowercased strings; `len`
and `find` count characters, hence the character-list operations. -/
def score (q name : String) : Nat × Nat :=
  let n := pyLower name
  let qq := pyLower q
  if n = qq then (0, n.length)
  else if qq.isPrefixOf n then (1, n.length)
  else
    match firstOccur qq n with
    | some idx => (2, idx)
    | none => (3, n.length)

/-- Ascending comparison of Python tuples `(rank, secondary)` — lexicographic
on pairs of naturals, as `sorted(..., key=score)` compares them. -/
def scoreLe (a b : Nat × Nat) : Bool :=
  decide (a.1 < b.1) || ((a.1 == b.1) && decide (a.2 ≤ b.2))

/-- Embedding of `sorted(rows, key=lambda r: score(r[0]))` — Python's stable
mergesort keyed by `score` on the row name. -/
def rankRows (q : String) (rows : List IndexRow) : List IndexRow :=
  rows.mergeSort (fun a b => scoreLe (score q a.name) (score q b.name))

/-- The sqlite index of a docset, as `search_docset` observes it: the table
names of the database, and the row oracle standing for
`SELECT name, type, path FROM {table} WHERE name LIKE ? LIMIT ?`
(arguments: table name, LIKE pattern, fetch bound). -/
structure IndexDB where
  tables : List String
  rows : String → String → Int → List IndexRow

/-- Embedding of `_get_search_table`: prefer the exact `searchIndex` name,
else the first case-insensitive match; `none` models the `RuntimeError`. -/
def getSearchTable (tables : List String) : Option String :=
  if "searchIndex" ∈ tables then some "searchIndex"
  else tables.find? (fun t => String.mk (pyLower t) == "searchindex")

/-- Embedding of the `source_uri` synthesis
`f"zeal://docset/{docset.id}/doc/{path}"`. -/
def mkSourceUri (docsetId path : String) : String :=
  "zeal://docset/" ++ docsetId ++ "/doc/" ++ path

/-- Embedding of `search_docset(docset, query, limit)`.  The sqlite
connection is the `db` parameter; `.error ()` models the propagated
`RuntimeError` of a missing search table. -/
def searchDocset (d : Docset) (db : IndexDB) (query : String) (limit : Int) :
    Except Unit (List SearchResult) :=
  let q := pyStrip query
  if q = "" then .ok []
  else
    match getSearchTable db.tables with
    | none => .error ()
    | some table =>
      let fetchN := max (limit * 5) limit
      let rows := db.rows table ("%" ++ q ++ "%") fetchN
      let ranked := pySlice (rankRows q rows) limit
      .ok (ranked.map (fun r =>
        ⟨d.id, d.name, r.name, r.type, r.path, mkSourceUri d.id r.path⟩))

/-! ### Dispatcher (`server.py` `_search`)

The per-docset search is abstracted as `searchFn d q lim`, returning
`none` where `search_docset` would raise (the `try/except` of the "all"
branch catches any exception; the named branch propagates it).  The
docset registry is the insertion-ordered `{d.id: d}` dict, as an
association list. -/

/-- Request-level failures of `_search`. -/
inductive DispatchError where
  | unknownDocset (id : String) : DispatchError
  | searchFailed : DispatchError
deriving DecidableEq, Repr

/-- Embedding of `max(1, min(int(limit), 50))`. -/
def clampLimit (limit : Int) : Int :=
  max 1 (min limit 50)

/-- The "all" branch of `_search`: accumulate each docset's results in
registry order, skipping docsets whose search raises. -/
def searchAllBranch {δ ρ : Type} (docsets : List (String × δ))
    (searchFn : δ → String → Int → Option (List ρ)) (q : String) (lim : Int) :
    List ρ :=
  docsets.foldl (fun acc p =>
    match searchFn p.2 q lim with
    | some rs => acc ++ rs
    | none => acc) []

/-- Embedding of the `_search` dispatcher. -/
def dispatchSearch {δ ρ : Type} (docsets : List (String × δ))
    (searchFn : δ → String → Int → Option (List ρ))
    (query : String) (docset : Option String) (limit : Int) :
    Except DispatchError (List ρ) :=
  let lim := clampLimit limit
  let q := pyStrip query
  if q = "" then .ok []
  else
    match docset with
    | some ds =>
      if ds ≠ "" && ds ≠ "all" then
        match docsets.lookup ds with
        | none => .error (.unknownDocset ds)
        | some d =>
          match searchFn d q lim with
          | some rs => .ok rs
          | none => .error .searchFailed
      else .ok (pySlice (searchAllBranch docsets searchFn q lim) lim)
    | none => .ok (pySlice (searchAllBranch docsets searchFn q lim) lim)

/-! ### Filesystem scanner (`discover_docsets`, `_safe_docset_id`)

The filesystem is an oracle mapping each configured root-directory string
to `some children` when it exists and is a directory (with the directory
entries the `glob` would see), and `none` otherwise.  Each `DirEntry`
records what `discover_docsets` tests about a candidate:
`docset_root.is_dir()`, the existence of `Contents/Resources/docSet.dsidx`
and of `Contents/Resources/Documents`, and the outcome of loading
`Contents/Info.plist` (`none`: no such file; `some none`: present but
raising on load; `some (some i)`: loaded). -/

/-- Bundle-declared display metadata (`CFBundleDisplayName`, `CFBundleName`,
`DocSetPlatformFamily`); `none` is an absent key, `some ""` an empty one. -/
structure PlistInfo where
  displayName : Option String
  bundleName : Option String
  platformFamily : Option String
deriving DecidableEq, Repr

/-- One child of a configured docsets directory. -/
structure DirEntry where
  name : String
  isDir : Bool
  hasDsidx : Bool
  hasDocuments : Bool
  info : Option (Option PlistInfo)
deriving DecidableEq, Repr

/-- Model of Python `a or b` for an optional string `a`: `None` and the
empty string are falsy. -/
def pyOrStr (o : Option String) (dflt : String) : String :=
  match o with
  | some s => if s = "" then dflt else s
  | none => dflt

/-- Embedding of `_safe_docset_id(name)`: strip, replace non-allowed
characters with hyphens, collapse and trim hyphen runs, lowercase, fall
back to `"docset"`. -/
def safeDocsetId (name : String) : String :=
  let normalized := (pyStripChars name.data).map (fun ch =>
    if ch.isAlphanum || ch ∈ ['-', '_', '.'] then ch else '-')
  let collapsed :=
    String.intercalate "-" (((splitOnChar '-' normalized).map String.mk).filter (· ≠ ""))
  let lowered := String.mk (pyLower collapsed)
  if lowered = "" then "docset" else lowered

/-- Model of `pathlib.Path.stem` for a name ending in `".docset"`: drop the
suffix, except that for the bare name `".docset"` the leading dot is not a
suffix separator and the stem is the whole name. -/
def bundleStem (n : String) : String :=
  if n = ".docset" then n else String.mk (n.data.take (n.data.length - 7))

/-- Name resolution for one bundle: `docset_root.stem`, overridden by the
first truthy Dash-style plist key when `Info.plist` loads. -/
def resolveBundleName (e : DirEntry) : String :=
  let stem := bundleStem e.name
  match e.info with
  | some (some i) => pyOrStr i.displayName (pyOrStr i.bundleName (pyOrStr i.platformFamily stem))
  | some none => stem
  | none => stem

/-- Does a directory entry match `pathlib`'s `glob("*.docset")`?  `*`
matches any run of characters, the empty one included, and `pathlib`'s
glob — unlike the `glob` module — also matches hidden (dot-prefixed)
entries, so the pattern is exactly "name ends in `.docset`". -/
def isDocsetCandidate (e : DirEntry) : Bool :=
  ".docset".data.isSuffixOf e.name.data

/-- Scan of one configured root directory: the `glob`'s matches in sorted
order, each validated and turned into a `Docset`. -/
def scanBase (fs : String → Option (List DirEntry)) (base : String) : List Docset :=
  match fs base with
  | none => []
  | some children =>
    (((children.filter isDocsetCandidate).mergeSort
        (fun a b => charsLe a.name.data b.name.data)).filterMap (fun e =>
      if !e.isDir then none
      else if !(e.hasDsidx && e.hasDocuments) then none
      else
        let nm := resolveBundleName e
        let root := pathSegs base ++ [e.name]
        some { id := safeDocsetId nm
               name := nm
               root := root
               dsidxPath := root ++ ["Contents", "Resources", "docSet.dsidx"]
               documentsPath := root ++ ["Contents", "Resources", "Documents"] }))

/-- Model of `d.root.parent.name` for a segment-list root. -/
def parentName (root : List String) : String :=
  (root.dropLast.getLast?).getD ""

/-- One step of the id de-duplication loop of `discover_docsets`: the
`unique` dict is an insertion-ordered association list. -/
def dedupStep (u : List (String × Docset)) (d : Docset) : List (String × Docset) :=
  if d.id ∈ u.map Prod.fst then
    let altId := d.id ++ "-" ++ safeDocsetId (parentName d.root)
    if altId ∈ u.map Prod.fst then u
    else u ++ [(altId, { d with id := altId })]
  else u ++ [(d.id, d)]

/-- Embedding of `discover_docsets(docsets_dirs)`. -/
def discoverDocsets (fs : String → Option (List DirEntry)) (dirs : List String) :
    List Docset :=
  let scanned := dirs.flatMap (scanBase fs)
  let unique := scanned.foldl dedupStep []
  (unique.map Prod.snd).mergeSort
    (fun a b => charsLe (pyLower a.name) (pyLower b.name))

/-! ### Text extractor (`html_to_text`)

`BeautifulSoup(html, "lxml")` is an external collaborator; its result is
modelled as a forest of element/text nodes.  `soup(["script", "style",
"noscript"])` + `tag.decompose()` removes each such element subtree;
`soup.get_text("\n")` joins the remaining text nodes, in document order,
with one newline between consecutive ones. -/

mutual
inductive HNode where
  | text (s : String) : HNode
  | elem (tag : String) (children : HForest) : HNode
inductive HForest where
  | nil : HForest
  | cons (hd : HNode) (tl : HForest) : HForest
end

/-- The tags `html_to_text` decomposes before extraction. -/
def bannedTags : List String := ["script", "style", "noscript"]

mutual
/-- Removal of decomposed elements, node level: `none` when the node is
itself a banned element (the whole subtree vanishes). -/
def scrubNode : HNode → Option HNode
  | .text s => some (.text s)
  | .elem tag cs =>
    if tag ∈ bannedTags then none
    else some (.elem tag (scrubForest cs))
/-- Removal of decomposed elements, forest level. -/
def scrubForest : HForest → HForest
  | .nil => .nil
  | .cons n t =>
    match scrubNode n with
    | none => scrubForest t
    | some m => .cons m (scrubForest t)
end

mutual
/-- The text-node strings of a node, in document order. -/
def textsNode : HNode → List String
  | .text s => [s]
  | .elem _ cs => textsForest cs
/-- The text-node strings of a forest, in document order. -/
def textsForest : HForest → List String
  | .nil => []
  | .cons n t => textsNode n ++ textsForest t
end

mutual
/-- Does the node tree contain no banned element? -/
def bannedFreeNode : HNode → Bool
  | .text _ => true
  | .elem tag cs => !(bannedTags.contains tag) && bannedFreeForest cs
/-- Does the forest contain no banned element? -/
def bannedFreeForest : HForest → Bool
  | .nil => true
  | .cons n t => bannedFreeNode n && bannedFreeForest t
end

/-- Model of `soup.get_text("\n")` on the (already scrubbed) forest. -/
def getText (f : HForest) : String :=
  String.intercalate "\n" (textsForest f)

/-- The blank-line-collapsing loop of `html_to_text`: state is
`(compact, last_blank)`. -/
def compactLines (lines : List String) : List String :=
  (lines.foldl (fun (st : List String × Bool) line =>
    if line = "" then
      (if !st.2 && st.1 ≠ [] then st.1 ++ [""] else st.1, true)
    else (st.1 ++ [line], false)) ([], false)).1

/-- Embedding of `html_to_text(html)`, taking the parsed document forest:
decompose banned tags, extract text with newline separators, strip each
line, collapse blank-line runs, and strip the result. -/
def htmlToText (doc : HForest) : String :=
  let scrubbed := scrubForest doc
  let text := getText scrubbed
  let lines := (pySplitlines text.data).map (fun l => pyStrip (String.mk l))
  pyStrip (String.intercalate "\n" (compactLines lines))

/-! ## General lemmas -/

theorem pyStripChars_eq_nil {cs : List Char} (h : ∀ c ∈ cs, c.isWhitespace = true) :
    pyStripChars cs = [] := by
  unfold pyStripChars
  rw [List.dropWhile_eq_nil_iff.mpr h]
  rfl

theorem pyStrip_eq_empty {s : String} (h : ∀ c ∈ s.data, c.isWhitespace = true) :
    pyStrip s = "" := by
  unfold pyStrip
  rw [pyStripChars_eq_nil h]

theorem pySlice_of_nonneg {α : Type} (l : List α) {n : Int} (h : 0 ≤ n) :
    pySlice l n = l.take n.toNat := by
  simp [pySlice, h]

theorem pyRstripChars_isPrefixOf (l : List Char) : pyRstripChars l <+: l := by
  unfold pyRstripChars
  refine List.reverse_suffix.mp ?_
  rw [List.reverse_reverse]
  exact List.dropWhile_suffix Char.isWhitespace

theorem pyRstripChars_length_le (l : List Char) : (pyRstripChars l).length ≤ l.length :=
  (pyRstripChars_isPrefixOf l).sublist.length_le

theorem charsLe_trans : ∀ a b c : List Char,
    charsLe a b = true → charsLe b c = true → charsLe a c = true := by
  intro a
  induction a with
  | nil => intro b c _ _; rfl
  | cons x xs ih =>
    intro b c hab hbc
    cases b with
    | nil => simp [charsLe] at hab
    | cons y ys =>
      cases c with
      | nil => simp [charsLe] at hbc
      | cons z zs =>
        simp only [charsLe] at hab hbc ⊢
        rcases lt_trichotomy x y with hxy | hxy | hxy
        · rcases lt_trichotomy y z with hyz | hyz | hyz
          · rw [if_pos (lt_trans hxy hyz)]
          · subst hyz
            rw [if_pos hxy]
          · rw [if_neg (asymm hyz), if_pos hyz] at hbc
            simp at hbc
        · subst hxy
          rcases lt_trichotomy x z with hxz | hxz | hxz
          · rw [if_pos hxz]
          · subst hxz
            rw [if_neg (lt_irrefl x), if_neg (lt_irrefl x)] at hab hbc ⊢
            exact ih ys zs hab hbc
          · rw [if_neg (asymm hxz), if_pos hxz] at hbc
            simp at hbc
        · rw [if_neg (asymm hxy), if_pos hxy] at hab
          simp at hab

theorem charsLe_total : ∀ a b : List Char, (charsLe a b || charsLe b a) = true := by
  intro a
  induction a with
  | nil => intro b; simp [charsLe]
  | cons x xs ih =>
    intro b
    cases b with
    | nil => simp [charsLe]
    | cons y ys =>
      simp only [charsLe]
      rcases lt_trichotomy x y with hxy | hxy | hxy
      · rw [if_pos hxy]
        simp
      · subst hxy
        rw [if_neg (lt_irrefl x), if_neg (lt_irrefl x), if_neg (lt_irrefl x),
          if_neg (lt_irrefl x)]
        exact ih ys
      · rw [if_neg (asymm hxy), if_pos hxy, if_pos hxy]
        simp

theorem scoreLe_trans : ∀ a b c : Nat × Nat,
    scoreLe a b = true → scoreLe b c = true → scoreLe a c = true := by
  intro ⟨a1, a2⟩ ⟨b1, b2⟩ ⟨c1, c2⟩ hab hbc
  simp only [scoreLe, Bool.or_eq_true, Bool.and_eq_true, decide_eq_true_eq,
    beq_iff_eq] at hab hbc ⊢
  omega

theorem scoreLe_total : ∀ a b : Nat × Nat, (scoreLe a b || scoreLe b a) = true := by
  intro ⟨a1, a2⟩ ⟨b1, b2⟩
  simp only [scoreLe, Bool.or_eq_true, Bool.and_eq_true, decide_eq_true_eq, beq_iff_eq]
  omega

theorem searchAllBranch_eq {δ ρ : Type} (docsets : List (String × δ))
    (searchFn : δ → String → Int → Option (List ρ)) (q : String) (lim : Int) :
    searchAllBranch docsets searchFn q lim =
      (docsets.map (fun p => (searchFn p.2 q lim).getD [])).flatten := by
  suffices h : ∀ (l : List (String × δ)) (acc : List ρ),
      l.foldl (fun acc p =>
        match searchFn p.2 q lim with
        | some rs => acc ++ rs
        | none => acc) acc = acc ++ (l.map (fun p => (searchFn p.2 q lim).getD [])).flatten by
    simpa [searchAllBranch] using h docsets []
  intro l
  induction l with
  | nil => intro acc; simp
  | cons p t ih =>
    intro acc
    simp only [List.foldl_cons, List.map_cons, List.flatten_cons]
    cases hf : searchFn p.2 q lim <;> simp [hf, ih, List.append_assoc]

theorem clampLimit_eq (limit : Int) :
    clampLimit limit = if limit ≤ 0 then 1 else if 50 ≤ limit then 50 else limit := by
  simp only [clampLimit, Int.max_def, Int.min_def]
  split_ifs <;> omega

/-! ## Claim theorems -/

/-- C4: the dispatcher's search uses an effective limit equal to the supplied
limit clamped into [1, 50]: a nonpositive limit behaves as 1, a limit above
50 behaves as 50, an in-range limit is kept, and the dispatcher's behaviour
at `limit` is its behaviour at the clamped limit. -/
theorem dispatchSearch_limit_clamped {δ ρ : Type} (docsets : List (String × δ))
    (searchFn : δ → String → Int → Option (List ρ)) (query : String)
    (docset : Option String) (limit : Int) :
    dispatchSearch docsets searchFn query docset limit =
      dispatchSearch docsets searchFn query docset (clampLimit limit) ∧
    1 ≤ clampLimit limit ∧ clampLimit limit ≤ 50 ∧
    (limit ≤ 0 → clampLimit limit = 1) ∧
    (50 ≤ limit → clampLimit limit = 50) ∧
    (1 ≤ limit → limit ≤ 50 → clampLimit limit = limit) := by
  have hidem : clampLimit (clampLimit limit) = clampLimit limit := by
    simp only [clampLimit_eq]
    split_ifs <;> omega
  refine ⟨?_, ?_, ?_, fun h => ?_, fun h => ?_, fun h1 h2 => ?_⟩
  · simp only [dispatchSearch, hidem]
  · rw [clampLimit_eq]; split_ifs <;> omega
  · rw [clampLimit_eq]; split_ifs <;> omega
  · rw [clampLimit_eq]; split_ifs; omega
  · rw [clampLimit_eq]; split_ifs <;> omega
  · rw [clampLimit_eq]; split_ifs <;> omega

/-- C4 witness: concrete clampings — limit 0 behaves as 1, limit 1000 as 50. -/
theorem dispatchSearch_limit_clamped_witness :
    clampLimit 0 = 1 ∧ clampLimit 1000 = 50 ∧
    dispatchSearch ([] : List (String × Unit))
        (fun _ _ _ => (none : Option (List Unit))) "q" none 0 =
      dispatchSearch ([] : List (String × Unit))
        (fun _ _ _ => (none : Option (List Unit))) "q" none (clampLimit 0) :=
  ⟨(dispatchSearch_limit_clamped ([] : List (String × Unit))
      (fun _ _ _ => (none : Option (List Unit))) "q" none 0).2.2.2.1 (by decide),
   (dispatchSearch_limit_clamped ([] : List (String × Unit))
      (fun _ _ _ => (none : Option (List Unit))) "q" none 1000).2.2.2.2.1 (by decide),
   (dispatchSearch_limit_clamped ([] : List (String × Unit))
      (fun _ _ _ => (none : Option (List Unit))) "q" none 0).1⟩

/-- C10: the empty-query check precedes the docset-id lookup — for every
docset argument, registered or not, a whitespace-only query yields an empty
result list (never the unknown-docset failure). -/
theorem dispatchSearch_blank_query {δ ρ : Type} (docsets : List (String × δ))
    (searchFn : δ → String → Int → Option (List ρ)) (query : String)
    (docset : Option String) (limit : Int)
    (hq : ∀ c ∈ query.data, c.isWhitespace = true) :
    dispatchSearch docsets searchFn query docset limit = .ok [] := by
  simp [dispatchSearch, pyStrip_eq_empty hq]

/-- C10 witness: a blank query against an unregistered docset id returns an
empty result list rather than the unknown-docset failure. -/
theorem dispatchSearch_blank_query_witness :
    dispatchSearch ([] : List (String × Unit))
      (fun _ _ _ => (none : Option (List Unit))) " " (some "missing-id") 10 = .ok [] :=
  dispatchSearch_blank_query _ _ _ _ _ (by decide)

/-- C8: for every docset, limit and empty-or-whitespace query, `search_docset`
returns an empty list, and the result is independent of the contents of the
index database. -/
theorem searchDocset_blank_query (d : Docset) (db db' : IndexDB) (query : String)
    (limit : Int) (hq : ∀ c ∈ query.data, c.isWhitespace = true) :
    searchDocset d db query limit = .ok [] ∧
    searchDocset d db query limit = searchDocset d db' query limit := by
  have h : ∀ dbx : IndexDB, searchDocset d dbx query limit = .ok [] := by
    intro dbx
    simp [searchDocset, pyStrip_eq_empty hq]
  exact ⟨h db, (h db).trans (h db').symm⟩

/-- C8 witness: a whitespace query returns no results, whether or not the
index database has a `searchIndex` table or rows. -/
theorem searchDocset_blank_query_witness :
    searchDocset ⟨"py", "Python", ["b", "Python.docset"],
        ["b", "Python.docset", "Contents", "Resources", "docSet.dsidx"],
        ["b", "Python.docset", "Contents", "Resources", "Documents"]⟩
      ⟨["searchIndex"], fun _ _ _ => [⟨"print", some "Function", "print.html"⟩]⟩
      "  " 10 = .ok [] ∧
    searchDocset ⟨"py", "Python", ["b", "Python.docset"],
        ["b", "Python.docset", "Contents", "Resources", "docSet.dsidx"],
        ["b", "Python.docset", "Contents", "Resources", "Documents"]⟩
      ⟨["searchIndex"], fun _ _ _ => [⟨"print", some "Function", "print.html"⟩]⟩
      "  " 10 =
    searchDocset ⟨"py", "Python", ["b", "Python.docset"],
        ["b", "Python.docset", "Contents", "Resources", "docSet.dsidx"],
        ["b", "Python.docset", "Contents", "Resources", "Documents"]⟩
      ⟨[], fun _ _ _ => []⟩ "  " 10 :=
  searchDocset_blank_query _ _ _ _ _ (by decide)

/-- C3: with docset absent, null or the sentinel "all" and a non-blank query,
the dispatcher searches every registered docset with the same clamped
per-docset limit, concatenates the per-docset results (a failing docset
contributing the empty list) in registry order, truncates to the clamped
limit, and succeeds. -/
theorem dispatchSearch_all {δ ρ : Type} (docsets : List (String × δ))
    (searchFn : δ → String → Int → Option (List ρ)) (query : String)
    (docset : Option String) (limit : Int)
    (hq : pyStrip query ≠ "") (hd : docset = none ∨ docset = some "all") :
    dispatchSearch docsets searchFn query docset limit =
      .ok (((docsets.map
          (fun p => (searchFn p.2 (pyStrip query) (clampLimit limit)).getD [])).flatten).take
        (clampLimit limit).toNat) := by
  have hpos : (0 : Int) ≤ clampLimit limit := by
    rw [clampLimit_eq]; split_ifs <;> omega
  rcases hd with hd | hd <;> subst hd <;>
    simp [dispatchSearch, hq, searchAllBranch_eq, pySlice_of_nonneg _ hpos]

/-- C3 witness: a two-docset registry where the second docset's search
raises; searching "all" succeeds with the concatenation truncated to the
clamped limit. -/
theorem dispatchSearch_all_witness :
    dispatchSearch [("a", 1), ("b", 2)]
        (fun d _ _ => if d = 1 then some [d] else (none : Option (List Nat)))
        "Foo" (some "all") 10 =
      .ok ((([("a", 1), ("b", 2)].map
          (fun p => ((fun d _ _ => if d = 1 then some [d] else (none : Option (List Nat)))
            p.2 (pyStrip "Foo") (clampLimit 10)).getD [])).flatten).take
        (clampLimit 10).toNat) :=
  dispatchSearch_all _ _ _ _ _ (by decide) (Or.inr rfl)

/-- C5 counterexample: `truncate(" b", 1)` strips the whitespace cut down to
the empty string, so the prefix before the marker has length 0, not `k = 1`
(the output does not even begin with the first character of the text); and
for an input that already contains the marker, an unchanged (untruncated)
return still contains the marker. -/
theorem truncateText_counterexample :
    truncateText " b" 1 = "\n\n[TRUNCATED]" ∧
    (truncateText " b" 1).data.take 1 ≠ " b".data.take 1 ∧
    truncateText "[TRUNCATED]" 0 = "[TRUNCATED]" ∧
    containsSub "[TRUNCATED]" (truncateText "[TRUNCATED]" 0) = true := by decide

/-- C5 (amended): `truncate` returns the text unchanged when `maxChars <= 0`
or the length fits; for `0 < k < len(text)` it returns the first `k`
characters with trailing whitespace stripped — a prefix of the cut of length
at most `k` — followed by a blank line and the non-empty marker; and when no
truncation occurred the output is exactly the input, so it contains the
marker only if the input did. -/
theorem truncateText_spec (text : String) (maxChars : Int) :
    (maxChars ≤ 0 → truncateText text maxChars = text) ∧
    ((text.length : Int) ≤ maxChars → truncateText text maxChars = text) ∧
    (0 < maxChars → maxChars < (text.length : Int) →
      truncateText text maxChars =
        String.mk (pyRstripChars (text.data.take maxChars.toNat)) ++ "\n\n[TRUNCATED]" ∧
      pyRstripChars (text.data.take maxChars.toNat) <+: text.data.take maxChars.toNat ∧
      (pyRstripChars (text.data.take maxChars.toNat)).length ≤ maxChars.toNat ∧
      ("[TRUNCATED]" : String) ≠ "") ∧
    ((maxChars ≤ 0 ∨ (text.length : Int) ≤ maxChars) →
      containsSub "[TRUNCATED]" (truncateText text maxChars) =
        containsSub "[TRUNCATED]" text) := by
  refine ⟨fun h => ?_, fun h => ?_, fun h1 h2 => ⟨?_, ?_, ?_, by decide⟩, fun h => ?_⟩
  · simp [truncateText, h]
  · simp [truncateText, h]
  · have ha : ¬ (maxChars ≤ 0) := not_le.mpr h1
    have hb : ¬ ((text.length : Int) ≤ maxChars) := not_le.mpr h2
    simp [truncateText, ha, hb]
  · exact pyRstripChars_isPrefixOf _
  · exact (pyRstripChars_length_le _).trans
      (by rw [List.length_take]; exact min_le_left _ _)
  · rcases h with h | h <;> simp [truncateText, h]

/-- C5 witness: unchanged returns at `maxChars = 0` and `maxChars = len`, and
the truncated shape at `k = 2` for a length-4 text. -/
theorem truncateText_spec_witness :
    truncateText "abc" 0 = "abc" ∧ truncateText "abc" 3 = "abc" ∧
    truncateText "abcd" 2 =
      String.mk (pyRstripChars ("abcd".data.take (2 : Int).toNat)) ++ "\n\n[TRUNCATED]" :=
  ⟨(truncateText_spec "abc" 0).1 (by decide),
   (truncateText_spec "abc" 3).2.1 (by decide),
   ((truncateText_spec "abcd" 2).2.2.1 (by decide) (by decide)).1⟩

theorem firstOccur_of_isPrefixOf {pat s : List Char} (h : pat.isPrefixOf s = true) :
    firstOccur pat s = some 0 := by
  cases s <;> simp [firstOccur, h]

theorem isPrefixOf_false_ne {q n : List Char} (h : q.isPrefixOf n = false) : n ≠ q := by
  intro he
  subst he
  rw [ List.isPrefixOf_iff_prefix.mpr ( List.prefix_refl n)] at h
  cases h

/-- C2: the re-ranking of fetched rows orders them ascending by the tuple
key `(rank, secondary)` — rank 0 (secondary: name length) on exact
case-insensitive equality, rank 1 (name length) on case-insensitive prefix
match, rank 2 (match offset) on a substring match elsewhere, rank 3 (name
length) otherwise; the sort loses no row, is stable (rows with equal keys
keep their fetched order), is deterministic, and for query "Foo" every row
named "Foo" is ordered strictly before every row named "Foobar". -/
theorem searchRank_ordering (q : String) (rows : List IndexRow) :
    (∀ name : String,
      (pyLower name = pyLower q → score q name = (0, (pyLower name).length)) ∧
      (pyLower name ≠ pyLower q → (pyLower q).isPrefixOf (pyLower name) = true →
        score q name = (1, (pyLower name).length)) ∧
      (∀ i, (pyLower q).isPrefixOf (pyLower name) = false →
        firstOccur (pyLower q) (pyLower name) = some i → score q name = (2, i)) ∧
      (firstOccur (pyLower q) (pyLower name) = none →
        score q name = (3, (pyLower name).length))) ∧
    (rankRows q rows).Pairwise
      (fun a b => scoreLe (score q a.name) (score q b.name) = true) ∧
    (rankRows q rows).Perm rows ∧
    (∀ a b : IndexRow, scoreLe (score q a.name) (score q b.name) = true →
      [a, b].Sublist rows → [a, b].Sublist (rankRows q rows)) ∧
    (∀ a b : IndexRow, q = "Foo" → a.name = "Foo" → b.name = "Foobar" →
      ¬ [b, a].Sublist (rankRows q rows)) := by
  have htrans : ∀ a b c : IndexRow,
      scoreLe (score q a.name) (score q b.name) = true →
      scoreLe (score q b.name) (score q c.name) = true →
      scoreLe (score q a.name) (score q c.name) = true :=
    fun _ _ _ hab hbc => scoreLe_trans _ _ _ hab hbc
  have htotal : ∀ a b : IndexRow,
      (scoreLe (score q a.name) (score q b.name) ||
        scoreLe (score q b.name) (score q a.name)) = true :=
    fun _ _ => scoreLe_total _ _
  refine ⟨?_, ?_, ?_, ?_, ?_⟩
  · intro name
    refine ⟨fun h => ?_, fun h1 h2 => ?_, fun i h1 h2 => ?_, fun h => ?_⟩
    · simp [score, h]
    · simp [score, h1, h2]
    · have hne : pyLower name ≠ pyLower q := isPrefixOf_false_ne h1
      simp [score, hne, h1, h2]
    · have h0 : (pyLower q).isPrefixOf (pyLower name) = false := by
        cases hp : (pyLower q).isPrefixOf (pyLower name)
        · rfl
        · rw [firstOccur_of_isPrefixOf hp] at h
          cases h
      have hne : pyLower name ≠ pyLower q := isPrefixOf_false_ne h0
      simp [score, hne, h0, h]
  · exact List.sorted_mergeSort htrans htotal rows
  · exact List.mergeSort_perm rows _
  · intro a b hab hsub
    exact List.pair_sublist_mergeSort htrans htotal hab hsub
  · intro a b hq ha hb hsub
    subst hq
    have hpair := (List.sorted_mergeSort htrans htotal rows).sublist hsub
    have hba := (List.pairwise_cons.mp hpair).1 a (List.mem_cons_self a [])
    rw [ha, hb] at hba
    have hfalse : scoreLe (score "Foo" "Foobar") (score "Foo" "Foo") = false := by decide
    rw [hfalse] at hba
    cases hba

/-- C2 witness: for query "Foo" over fetched rows `["Foobar", "Foo"]`, the
"Foobar" row never precedes the "Foo" row in the ranked output. -/
theorem searchRank_ordering_witness :
    ¬ [⟨"Foobar", none, "p2"⟩, ⟨"Foo", none, "p1"⟩].Sublist
        (rankRows "Foo" [⟨"Foobar", none, "p2"⟩, (⟨"Foo", none, "p1"⟩ : IndexRow)]) :=
  (searchRank_ordering "Foo" [⟨"Foobar", none, "p2"⟩, ⟨"Foo", none, "p1"⟩]).2.2.2.2
    ⟨"Foo", none, "p1"⟩ ⟨"Foobar", none, "p2"⟩ rfl rfl rfl

theorem noEscapePasswd {R : List String} (h : R.getLast? = some "Documents") :
    R.isPrefixOf (R.dropLast.dropLast ++ ["etc", "passwd"]) = false := by
  cases hval : R.isPrefixOf (R.dropLast.dropLast ++ ["etc", "passwd"])
  · rfl
  · exfalso
    have hpre := List.isPrefixOf_iff_prefix.mp hval
    rcases List.eq_nil_or_concat R with rfl | ⟨S, a, rfl⟩
    · cases h
    · simp only [List.concat_eq_append] at h hpre
      rw [List.getLast?_concat] at h
      have ha : a = "Documents" := Option.some.inj h
      subst ha
      rw [List.dropLast_concat] at hpre
      rcases List.eq_nil_or_concat S with rfl | ⟨T, b, rfl⟩
      · rw [List.nil_append, List.dropLast_nil, List.nil_append,
          List.cons_prefix_cons] at hpre
        exact absurd hpre.1 (by decide)
      · simp only [List.concat_eq_append] at hpre
        rw [List.dropLast_concat] at hpre
        have heq := hpre.eq_of_length (by simp)
        rw [List.append_assoc] at heq
        have hc := List.append_cancel_left heq
        have hlast := congrArg (fun l => l.getLast?) hc
        simp at hlast

/-- C1: `load_entry_html` strips leading separators and anchor/query parts,
canonicalises the remaining path against the docset's document root, fails
with the invalid-path condition exactly when the canonical path is neither
the canonical document root nor a descendant of it, fails with the distinct
not-found condition when the path is inside the root but is no existing
regular file, and returns the file contents otherwise; in particular, for
the path `"../../etc/passwd"` it fails with invalid-path against any
document root that canonicalises to a path ending in a `Documents` segment
(as every discovered docset's document root
`<root>/Contents/Resources/Documents` does). -/
theorem loadEntryHtml_spec (d : Docset) (fs : List String → Option String) (path : String) :
    ((resolvePath d.documentsPath).isPrefixOf
        (resolvePath (d.documentsPath ++ pathSegs (cleanRelPath path))) = false →
      loadEntryHtml d fs path = .error .invalidPath) ∧
    ((resolvePath d.documentsPath).isPrefixOf
        (resolvePath (d.documentsPath ++ pathSegs (cleanRelPath path))) = true →
      fs (resolvePath (d.documentsPath ++ pathSegs (cleanRelPath path))) = none →
      loadEntryHtml d fs path = .error .notFound) ∧
    (∀ c, (resolvePath d.documentsPath).isPrefixOf
        (resolvePath (d.documentsPath ++ pathSegs (cleanRelPath path))) = true →
      fs (resolvePath (d.documentsPath ++ pathSegs (cleanRelPath path))) = some c →
      loadEntryHtml d fs path =
        .ok (c, resolvePath (d.documentsPath ++ pathSegs (cleanRelPath path)))) ∧
    ((resolvePath d.documentsPath).getLast? = some "Documents" →
      loadEntryHtml d fs "../../etc/passwd" = .error .invalidPath) := by
  refine ⟨fun h => ?_, fun h hf => ?_, fun c h hf => ?_, fun hdoc => ?_⟩
  · simp [loadEntryHtml, h]
  · simp [loadEntryHtml, h, hf]
  · simp [loadEntryHtml, h, hf]
  · have hsegs : pathSegs (cleanRelPath "../../etc/passwd") =
        ["..", "..", "etc", "passwd"] := by decide
    have hfull : resolvePath (d.documentsPath ++ ["..", "..", "etc", "passwd"]) =
        (resolvePath d.documentsPath).dropLast.dropLast ++ ["etc", "passwd"] := by
      show List.foldl resolveStep [] (d.documentsPath ++ ["..", "..", "etc", "passwd"]) = _
      rw [List.foldl_append]
      show List.foldl resolveStep (resolvePath d.documentsPath)
        ["..", "..", "etc", "passwd"] = _
      simp [resolveStep, List.append_assoc]
    simp [loadEntryHtml, hsegs, hfull, noEscapePasswd hdoc]

/-- C1 witness: against the document root of a discovered-shape docset,
`"../../etc/passwd"` is rejected as an invalid path even on a filesystem
where every lookup would succeed, and an in-root path that is no regular
file gives the distinct not-found failure. -/
theorem loadEntryHtml_spec_witness :
    loadEntryHtml ⟨"x", "X", ["b", "x.docset"],
        ["b", "x.docset", "Contents", "Resources", "docSet.dsidx"],
        ["b", "x.docset", "Contents", "Resources", "Documents"]⟩
      (fun _ => some "secret") "../../etc/passwd" = .error .invalidPath ∧
    loadEntryHtml ⟨"x", "X", ["b", "x.docset"],
        ["b", "x.docset", "Contents", "Resources", "docSet.dsidx"],
        ["b", "x.docset", "Contents", "Resources", "Documents"]⟩
      (fun _ => none) "index.html" = .error .notFound :=
  ⟨(loadEntryHtml_spec ⟨"x", "X", ["b", "x.docset"],
        ["b", "x.docset", "Contents", "Resources", "docSet.dsidx"],
        ["b", "x.docset", "Contents", "Resources", "Documents"]⟩
      (fun _ => some "secret") "../../etc/passwd").2.2.2 (by decide),
   (loadEntryHtml_spec ⟨"x", "X", ["b", "x.docset"],
        ["b", "x.docset", "Contents", "Resources", "docSet.dsidx"],
        ["b", "x.docset", "Contents", "Resources", "Documents"]⟩
      (fun _ => none) "index.html").2.1 (by decide) rfl⟩

mutual
theorem scrubNode_bannedFree : ∀ (n m : HNode), scrubNode n = some m → bannedFreeNode m = true
  | .text s, m, h => by
    simp only [scrubNode, Option.some.injEq] at h
    subst h
    rfl
  | .elem tag cs, m, h => by
    simp only [scrubNode] at h
    split at h
    · cases h
    · rename_i htag
      simp only [Option.some.injEq] at h
      subst h
      simp only [bannedFreeNode, Bool.and_eq_true, Bool.not_eq_true']
      refine ⟨?_, scrubForest_bannedFree cs⟩
      simp [List.contains, List.elem_eq_mem, htag]
theorem scrubForest_bannedFree : ∀ (f : HForest), bannedFreeForest (scrubForest f) = true
  | .nil => rfl
  | .cons n t => by
    cases hn : scrubNode n with
    | none =>
      simp only [scrubForest, hn]
      exact scrubForest_bannedFree t
    | some m =>
      simp only [scrubForest, hn, bannedFreeForest, Bool.and_eq_true]
      exact ⟨scrubNode_bannedFree n m hn, scrubForest_bannedFree t⟩
end

mutual
theorem scrubNode_idem : ∀ (n m : HNode), scrubNode n = some m → scrubNode m = some m
  | .text s, m, h => by
    simp only [scrubNode, Option.some.injEq] at h
    subst h
    rfl
  | .elem tag cs, m, h => by
    simp only [scrubNode] at h
    split at h
    · cases h
    · rename_i htag
      simp only [Option.some.injEq] at h
      subst h
      simp only [scrubNode, if_neg htag, Option.some.injEq, HNode.elem.injEq, true_and]
      exact scrubForest_idem cs
theorem scrubForest_idem : ∀ (f : HForest), scrubForest (scrubForest f) = scrubForest f
  | .nil => rfl
  | .cons n t => by
    cases hn : scrubNode n with
    | none =>
      simp only [scrubForest, hn]
      exact scrubForest_idem t
    | some m =>
      simp only [scrubForest, hn, scrubNode_idem n m hn]
      rw [scrubForest_idem t]
end

/-- The parsed document tree of
`"<script>alert(1)</script><h1>Title</h1><p>Hi</p>"`. -/
def exDoc : HForest :=
  .cons (.elem "script" (.cons (.text "alert(1)") .nil))
    (.cons (.elem "h1" (.cons (.text "Title") .nil))
      (.cons (.elem "p" (.cons (.text "Hi") .nil)) .nil))

/-- C9: `html_to_text` removes script/style/noscript subtrees entirely
before extraction — the scrubbed tree is free of them and the output only
depends on the scrubbed tree — and on the parsed tree of
`"<script>alert(1)</script><h1>Title</h1><p>Hi</p>"` the output contains
"Title" and "Hi" but not "alert". -/
theorem htmlToText_scrubs (doc : HForest) :
    bannedFreeForest (scrubForest doc) = true ∧
    htmlToText doc = htmlToText (scrubForest doc) ∧
    containsSub "Title" (htmlToText exDoc) = true ∧
    containsSub "Hi" (htmlToText exDoc) = true ∧
    containsSub "alert" (htmlToText exDoc) = false := by
  refine ⟨scrubForest_bannedFree doc, ?_, by decide, by decide, by decide⟩
  simp only [htmlToText, scrubForest_idem doc]

theorem dedup_invariant : ∀ (l : List Docset) (u : List (String × Docset)),
    (u.map Prod.fst).Nodup → (∀ p ∈ u, (p : String × Docset).2.id = p.1) →
    ((l.foldl dedupStep u).map Prod.fst).Nodup ∧
      ∀ p ∈ l.foldl dedupStep u, (p : String × Docset).2.id = p.1 := by
  intro l
  induction l with
  | nil => intro u h1 h2; exact ⟨h1, h2⟩
  | cons d t ih =>
    intro u h1 h2
    rw [List.foldl_cons]
    refine ih (dedupStep u d) ?_ ?_
    · simp only [dedupStep]
      split_ifs with hmem halt
      · exact h1
      · rw [List.map_append, List.nodup_append]
        exact ⟨h1, List.nodup_singleton _, by
          intro x hx hx2
          simp only [List.map_cons, List.map_nil, List.mem_singleton] at hx2
          exact halt (hx2 ▸ hx)⟩
      · rw [List.map_append, List.nodup_append]
        exact ⟨h1, List.nodup_singleton _, by
          intro x hx hx2
          simp only [List.map_cons, List.map_nil, List.mem_singleton] at hx2
          exact hmem (hx2 ▸ hx)⟩
    · simp only [dedupStep]
      split_ifs with hmem halt
      · exact h2
      · intro p hp
        rcases List.mem_append.mp hp with hp | hp
        · exact h2 p hp
        · rw [List.mem_singleton.mp hp]
      · intro p hp
        rcases List.mem_append.mp hp with hp | hp
        · exact h2 p hp
        · rw [List.mem_singleton.mp hp]

/-- C7: discovery returns docsets with pairwise-distinct ids, ordered by the
case-insensitive display-name sort, and is a pure function of the
filesystem state — a second call with identical inputs is identical. -/
theorem discoverDocsets_invariants (fs : String → Option (List DirEntry))
    (dirs : List String) :
    (discoverDocsets fs dirs).Pairwise (fun a b => a.id ≠ b.id) ∧
    (discoverDocsets fs dirs).Pairwise
      (fun a b => charsLe (pyLower a.name) (pyLower b.name) = true) ∧
    discoverDocsets fs dirs = discoverDocsets fs dirs := by
  refine ⟨?_, ?_, rfl⟩
  · have hinv := dedup_invariant (dirs.flatMap (scanBase fs)) [] (by simp) (by simp)
    have hkeys : (((dirs.flatMap (scanBase fs)).foldl dedupStep []).map
        Prod.fst).Pairwise (· ≠ ·) := hinv.1
    have hpair1 := List.pairwise_map.mp hkeys
    have hpair2 : ((dirs.flatMap (scanBase fs)).foldl dedupStep []).Pairwise
        (fun p q => p.2.id ≠ q.2.id) := by
      refine hpair1.imp_of_mem ?_
      intro p q hp hq hne
      rw [hinv.2 p hp, hinv.2 q hq]
      exact hne
    have hpair3 : (((dirs.flatMap (scanBase fs)).foldl dedupStep []).map
        Prod.snd).Pairwise (fun a b => a.id ≠ b.id) := List.pairwise_map.mpr hpair2
    simp only [discoverDocsets]
    have hsymm : ∀ {x y : Docset}, x.id ≠ y.id → y.id ≠ x.id := fun h => Ne.symm h
    exact ((List.mergeSort_perm
      (((dirs.flatMap (scanBase fs)).foldl dedupStep []).map Prod.snd)
      (fun a b => charsLe (pyLower a.name) (pyLower b.name))).pairwise_iff
        hsymm).mpr hpair3
  · simp only [discoverDocsets]
    exact @List.sorted_mergeSort Docset
      (fun a b => charsLe (pyLower a.name) (pyLower b.name))
      (fun a b c hab hbc => charsLe_trans _ _ _ hab hbc)
      (fun a b => charsLe_total _ _) _

theorem dedup_mono : ∀ (l : List Docset) (u : List (String × Docset))
    (p : String × Docset), p ∈ u → p ∈ l.foldl dedupStep u := by
  intro l
  induction l with
  | nil => intro u p hp; exact hp
  | cons d t ih =>
    intro u p hp
    rw [List.foldl_cons]
    refine ih _ p ?_
    simp only [dedupStep]
    split_ifs <;> simp [hp]

theorem dedup_fresh : ∀ (l : List Docset) (u : List (String × Docset)),
    (∀ e ∈ l, (e : Docset).id ∉ u.map Prod.fst) → ((l.map Docset.id).Nodup) →
    l.foldl dedupStep u = u ++ l.map (fun e => (e.id, e)) := by
  intro l
  induction l with
  | nil => intro u _ _; simp
  | cons d t ih =>
    intro u hfresh hnodup
    rw [List.map_cons] at hnodup
    have hn := List.nodup_cons.mp hnodup
    have hd : d.id ∉ u.map Prod.fst := hfresh d (List.mem_cons_self d t)
    have hstep : dedupStep u d = u ++ [(d.id, d)] := by
      simp only [dedupStep]
      rw [if_neg hd]
    have hfr2 : ∀ e ∈ t, (e : Docset).id ∉ (u ++ [(d.id, d)]).map Prod.fst := by
      intro e he hmem
      rw [List.map_append] at hmem
      rcases List.mem_append.mp hmem with hc | hc
      · exact hfresh e (List.mem_cons_of_mem d he) hc
      · simp only [List.map_cons, List.map_nil, List.mem_singleton] at hc
        exact hn.1 (hc ▸ List.mem_map_of_mem Docset.id he)
    rw [List.foldl_cons, hstep, ih (u ++ [(d.id, d)]) hfr2 hn.2]
    simp

theorem map_fst_idPair (l : List Docset) :
    (l.map (fun e => (e.id, e))).map Prod.fst = l.map Docset.id := by
  rw [List.map_map]
  rfl

/-- C6 (amended): when exactly two of the discovered bundles share a
normalized identifier — all other bundles having pairwise-distinct bare
identifiers, distinct from both the shared one and from the suffixed one —
the first-discovered bundle keeps the bare identifier, the second appears
under the identifier suffixed with its parent directory's normalized name,
and both bundles appear in the output.  (Unamended the claim is false: a
third bundle colliding on both the bare and the suffixed identifier is
dropped from the output, see the counterexample.) -/
theorem discover_collision_amended (fs : String → Option (List DirEntry))
    (dirs : List String) (pre mid post : List Docset) (a b : Docset)
    (hscan : dirs.flatMap (scanBase fs) = pre ++ a :: (mid ++ b :: post))
    (hid : b.id = a.id)
    (hnodup : ((pre ++ (mid ++ post)).map Docset.id).Nodup)
    (hothers : ∀ c ∈ pre ++ (mid ++ post), c.id ≠ a.id ∧
      c.id ≠ b.id ++ "-" ++ safeDocsetId (parentName b.root)) :
    a ∈ discoverDocsets fs dirs ∧
    (⟨b.id ++ "-" ++ safeDocsetId (parentName b.root), b.name, b.root, b.dsidxPath,
      b.documentsPath⟩ : Docset) ∈ discoverDocsets fs dirs := by
  rw [List.map_append, List.map_append] at hnodup
  obtain ⟨hpreN, hmpN, hdisj⟩ := List.nodup_append.mp hnodup
  obtain ⟨hmidN, hpostN, hdisj2⟩ := List.nodup_append.mp hmpN
  have hothersPre : ∀ c ∈ pre, c.id ≠ a.id ∧
      c.id ≠ b.id ++ "-" ++ safeDocsetId (parentName b.root) :=
    fun c hc => hothers c (List.mem_append_left _ hc)
  have hothersMid : ∀ c ∈ mid, c.id ≠ a.id ∧
      c.id ≠ b.id ++ "-" ++ safeDocsetId (parentName b.root) :=
    fun c hc => hothers c (List.mem_append_right _ (List.mem_append_left _ hc))
  have haltne : b.id ++ "-" ++ safeDocsetId (parentName b.root) ≠ a.id := by
    intro he
    have hlen := congrArg String.length he
    rw [String.length_append, String.length_append] at hlen
    have hba : b.id.length = a.id.length := congrArg String.length hid
    have hone : ("-" : String).length = 1 := rfl
    omega
  have h1 : pre.foldl dedupStep [] = pre.map (fun e => (e.id, e)) := by
    have := dedup_fresh pre [] (by intro e _ hmem; simp at hmem) hpreN
    simpa using this
  have hamem0 : a.id ∉ (pre.map (fun e => (e.id, e))).map Prod.fst := by
    rw [map_fst_idPair]
    intro hmem
    obtain ⟨c, hc, hce⟩ := List.mem_map.mp hmem
    exact (hothersPre c hc).1 hce
  have hstepa : dedupStep (pre.map (fun e => (e.id, e))) a =
      pre.map (fun e => (e.id, e)) ++ [(a.id, a)] := by
    simp only [dedupStep]
    rw [if_neg hamem0]
  have hfreshmid : ∀ e ∈ mid, (e : Docset).id ∉
      ((pre.map (fun e => (e.id, e)) ++ [(a.id, a)]).map Prod.fst) := by
    intro e he hmem
    rw [List.map_append, map_fst_idPair] at hmem
    rcases List.mem_append.mp hmem with hc | hc
    · exact hdisj hc (List.mem_append_left _ (List.mem_map_of_mem Docset.id he))
    · simp only [List.map_cons, List.map_nil, List.mem_singleton] at hc
      exact (hothersMid e he).1 hc
  have hmidfold : mid.foldl dedupStep (pre.map (fun e => (e.id, e)) ++ [(a.id, a)]) =
      (pre.map (fun e => (e.id, e)) ++ [(a.id, a)]) ++ mid.map (fun e => (e.id, e)) :=
    dedup_fresh mid _ hfreshmid hmidN
  have hkeys3 : (((pre.map (fun e => (e.id, e)) ++ [(a.id, a)]) ++
      mid.map (fun e => (e.id, e))).map Prod.fst) =
      (pre.map Docset.id ++ [a.id]) ++ mid.map Docset.id := by
    rw [List.map_append, List.map_append, map_fst_idPair, map_fst_idPair]
    rfl
  have hbmem : b.id ∈ (((pre.map (fun e => (e.id, e)) ++ [(a.id, a)]) ++
      mid.map (fun e => (e.id, e))).map Prod.fst) := by
    rw [hkeys3, hid]
    exact List.mem_append_left _ (List.mem_append_right _ (List.mem_singleton.mpr rfl))
  have haltnot : b.id ++ "-" ++ safeDocsetId (parentName b.root) ∉
      (((pre.map (fun e => (e.id, e)) ++ [(a.id, a)]) ++
        mid.map (fun e => (e.id, e))).map Prod.fst) := by
    rw [hkeys3]
    intro hmem
    rcases List.mem_append.mp hmem with hc | hc
    · rcases List.mem_append.mp hc with hc2 | hc2
      · obtain ⟨c, hcm, hce⟩ := List.mem_map.mp hc2
        exact (hothersPre c hcm).2 hce
      · rw [List.mem_singleton] at hc2
        exact haltne hc2
    · obtain ⟨c, hcm, hce⟩ := List.mem_map.mp hc
      exact (hothersMid c hcm).2 hce
  have hstepb : dedupStep ((pre.map (fun e => (e.id, e)) ++ [(a.id, a)]) ++
      mid.map (fun e => (e.id, e))) b =
      ((pre.map (fun e => (e.id, e)) ++ [(a.id, a)]) ++ mid.map (fun e => (e.id, e))) ++
        [(b.id ++ "-" ++ safeDocsetId (parentName b.root),
          ⟨b.id ++ "-" ++ safeDocsetId (parentName b.root), b.name, b.root, b.dsidxPath,
            b.documentsPath⟩)] := by
    simp only [dedupStep]
    rw [if_pos hbmem, if_neg haltnot]
  have hfold : (dirs.flatMap (scanBase fs)).foldl dedupStep [] =
      post.foldl dedupStep
        ((((pre.map (fun e => (e.id, e)) ++ [(a.id, a)]) ++
          mid.map (fun e => (e.id, e))) ++
          [(b.id ++ "-" ++ safeDocsetId (parentName b.root),
            ⟨b.id ++ "-" ++ safeDocsetId (parentName b.root), b.name, b.root, b.dsidxPath,
              b.documentsPath⟩)])) := by
    rw [hscan, List.foldl_append, h1, List.foldl_cons, hstepa, List.foldl_append,
      hmidfold, List.foldl_cons, hstepb]
  have hmema : ((a.id, a) : String × Docset) ∈
      (dirs.flatMap (scanBase fs)).foldl dedupStep [] := by
    rw [hfold]
    apply dedup_mono
    simp
  have hmemb : ((b.id ++ "-" ++ safeDocsetId (parentName b.root),
      (⟨b.id ++ "-" ++ safeDocsetId (parentName b.root), b.name, b.root, b.dsidxPath,
        b.documentsPath⟩ : Docset)) : String × Docset) ∈
      (dirs.flatMap (scanBase fs)).foldl dedupStep [] := by
    rw [hfold]
    apply dedup_mono
    simp
  constructor
  · simp only [discoverDocsets, List.mem_mergeSort]
    exact List.mem_map_of_mem Prod.snd hmema
  · simp only [discoverDocsets, List.mem_mergeSort]
    exact List.mem_map_of_mem Prod.snd hmemb

theorem dedup_preserves_docpath (P : List String → Prop) :
    ∀ (l : List Docset) (u : List (String × Docset)),
    (∀ d ∈ l, P (d : Docset).documentsPath) →
    (∀ p ∈ u, P (p : String × Docset).2.documentsPath) →
    ∀ p ∈ l.foldl dedupStep u, P (p : String × Docset).2.documentsPath := by
  intro l
  induction l with
  | nil => intro u _ hu; exact hu
  | cons d t ih =>
    intro u hl hu
    rw [List.foldl_cons]
    refine ih _ (fun e he => hl e (List.mem_cons_of_mem d he)) ?_
    simp only [dedupStep]
    split_ifs
    · exact hu
    · intro p hp
      rcases List.mem_append.mp hp with hp | hp
      · exact hu p hp
      · rw [List.mem_singleton.mp hp]
        exact hl d (List.mem_cons_self d t)
    · intro p hp
      rcases List.mem_append.mp hp with hp | hp
      · exact hu p hp
      · rw [List.mem_singleton.mp hp]
        exact hl d (List.mem_cons_self d t)

theorem scanBase_documentsPath (fs : String → Option (List DirEntry)) (base : String) :
    ∀ d ∈ scanBase fs base,
      ∃ r, (d : Docset).documentsPath = r ++ ["Contents", "Resources", "Documents"] := by
  intro d hd
  unfold scanBase at hd
  cases hfs : fs base with
  | none => rw [hfs] at hd; cases hd
  | some children =>
    rw [hfs] at hd
    obtain ⟨e, _, hfe⟩ := List.mem_filterMap.mp hd
    split_ifs at hfe
    all_goals cases hfe
    exact ⟨pathSegs base ++ [e.name], rfl⟩

theorem resolvePath_documents (xs : List String) :
    (resolvePath (xs ++ ["Contents", "Resources", "Documents"])).getLast? =
      some "Documents" := by
  show (List.foldl resolveStep [] _).getLast? = _
  rw [List.foldl_append]
  simp [resolveStep]

/-- Every discovered docset's document root canonicalises to a path ending
in a `Documents` segment — the shape under which `loadEntryHtml_spec`
rejects `"../../etc/passwd"`. -/
theorem discoverDocsets_documentsPath (fs : String → Option (List DirEntry))
    (dirs : List String) :
    ∀ d ∈ discoverDocsets fs dirs,
      (resolvePath (d : Docset).documentsPath).getLast? = some "Documents" := by
  intro d hd
  simp only [discoverDocsets, List.mem_mergeSort] at hd
  obtain ⟨p, hp, rfl⟩ := List.mem_map.mp hd
  refine dedup_preserves_docpath
    (fun dp => (resolvePath dp).getLast? = some "Documents")
    (dirs.flatMap (scanBase fs)) [] ?_ (by simp) p hp
  intro e he
  obtain ⟨base, _, hin⟩ := List.mem_flatMap.mp he
  obtain ⟨r, hr⟩ := scanBase_documentsPath fs base e hin
  rw [hr]
  exact resolvePath_documents r

/-- A valid bundle directory entry whose `Info.plist` declares the display
name "Same". -/
def collideEntry (n : String) : DirEntry :=
  ⟨n, true, true, true, some (some ⟨some "Same", none, none⟩)⟩

/-- A filesystem with three valid bundles under `/bases`, all named "Same". -/
def collideFs3 : String → Option (List DirEntry) := fun b =>
  if b = "/bases" then
    some [collideEntry "A.docset", collideEntry "B.docset", collideEntry "C.docset"]
  else none

/-- A filesystem with two valid bundles under `/bases`, both named "Same". -/
def collideFs2 : String → Option (List DirEntry) := fun b =>
  if b = "/bases" then some [collideEntry "A.docset", collideEntry "B.docset"]
  else none

/-- The docset that scanning produces for a bundle `entry` under `/bases`
with display name `nm`. -/
def mkScanDocset (nm entry : String) : Docset :=
  { id := safeDocsetId nm
    name := nm
    root := ["bases", entry]
    dsidxPath := ["bases", entry, "Contents", "Resources", "docSet.dsidx"]
    documentsPath := ["bases", entry, "Contents", "Resources", "Documents"] }

theorem collideFs3_scan : ["/bases"].flatMap (scanBase collideFs3) =
    [mkScanDocset "Same" "A.docset", mkScanDocset "Same" "B.docset",
      mkScanDocset "Same" "C.docset"] := by
  have hfs : collideFs3 "/bases" =
      some [collideEntry "A.docset", collideEntry "B.docset", collideEntry "C.docset"] := by
    decide
  have hsort : ([collideEntry "A.docset", collideEntry "B.docset",
      collideEntry "C.docset"].filter isDocsetCandidate).mergeSort
      (fun a b => charsLe a.name.data b.name.data) =
      [collideEntry "A.docset", collideEntry "B.docset", collideEntry "C.docset"] := by
    have hfilter : [collideEntry "A.docset", collideEntry "B.docset",
        collideEntry "C.docset"].filter isDocsetCandidate =
        [collideEntry "A.docset", collideEntry "B.docset", collideEntry "C.docset"] := by
      decide
    rw [hfilter]
    exact List.mergeSort_of_sorted (by decide)
  simp only [List.flatMap_cons, List.flatMap_nil, List.append_nil, scanBase, hfs, hsort]
  decide

theorem collideFs2_scan : ["/bases"].flatMap (scanBase collideFs2) =
    [mkScanDocset "Same" "A.docset", mkScanDocset "Same" "B.docset"] := by
  have hfs : collideFs2 "/bases" =
      some [collideEntry "A.docset", collideEntry "B.docset"] := by decide
  have hsort : ([collideEntry "A.docset", collideEntry "B.docset"].filter
      isDocsetCandidate).mergeSort (fun a b => charsLe a.name.data b.name.data) =
      [collideEntry "A.docset", collideEntry "B.docset"] := by
    have hfilter : [collideEntry "A.docset", collideEntry "B.docset"].filter
        isDocsetCandidate = [collideEntry "A.docset", collideEntry "B.docset"] := by
      decide
    rw [hfilter]
    exact List.mergeSort_of_sorted (by decide)
  simp only [List.flatMap_cons, List.flatMap_nil, List.append_nil, scanBase, hfs, hsort]
  decide

/-- C6 counterexample: three discovered bundles A, B, C all normalise to the
identifier "same"; discovery keeps A bare, suffixes B to "same-bases", and
drops C entirely (its suffixed identifier is already taken), so for the
colliding pairs (A, C) and (B, C) the claim's "both bundles appear in the
output" is false. -/
theorem discover_collision_counterexample :
    (["/bases"].flatMap (scanBase collideFs3)).map Docset.id =
      ["same", "same", "same"] ∧
    (discoverDocsets collideFs3 ["/bases"]).map (fun d => (d.id, d.root)) =
      [("same", ["bases", "A.docset"]), ("same-bases", ["bases", "B.docset"])] := by
  constructor
  · rw [collideFs3_scan]
    decide
  · have hded : [mkScanDocset "Same" "A.docset", mkScanDocset "Same" "B.docset",
        mkScanDocset "Same" "C.docset"].foldl dedupStep [] =
        [("same", mkScanDocset "Same" "A.docset"),
          ("same-bases",
            ⟨"same-bases", "Same", ["bases", "B.docset"],
              ["bases", "B.docset", "Contents", "Resources", "docSet.dsidx"],
              ["bases", "B.docset", "Contents", "Resources", "Documents"]⟩)] := by
      decide
    have hsort2 : ([("same", mkScanDocset "Same" "A.docset"),
        ("same-bases",
          (⟨"same-bases", "Same", ["bases", "B.docset"],
            ["bases", "B.docset", "Contents", "Resources", "docSet.dsidx"],
            ["bases", "B.docset", "Contents", "Resources", "Documents"]⟩ : Docset))].map
          Prod.snd).mergeSort (fun a b => charsLe (pyLower a.name) (pyLower b.name)) =
        [("same", mkScanDocset "Same" "A.docset"),
          ("same-bases",
            (⟨"same-bases", "Same", ["bases", "B.docset"],
              ["bases", "B.docset", "Contents", "Resources", "docSet.dsidx"],
              ["bases", "B.docset", "Contents", "Resources", "Documents"]⟩ : Docset))].map
          Prod.snd :=
      List.mergeSort_of_sorted (by decide)
    simp only [discoverDocsets, collideFs3_scan, hded, hsort2]
    decide

/-- C6 witness: with exactly two colliding bundles A and B (and no other
bundle), A keeps the bare identifier "same", B appears suffixed as
"same-bases", and both are in the output. -/
theorem discover_collision_amended_witness :
    mkScanDocset "Same" "A.docset" ∈ discoverDocsets collideFs2 ["/bases"] ∧
    (⟨(mkScanDocset "Same" "B.docset").id ++ "-" ++
        safeDocsetId (parentName (mkScanDocset "Same" "B.docset").root),
      (mkScanDocset "Same" "B.docset").name, (mkScanDocset "Same" "B.docset").root,
      (mkScanDocset "Same" "B.docset").dsidxPath,
      (mkScanDocset "Same" "B.docset").documentsPath⟩ : Docset) ∈
      discoverDocsets collideFs2 ["/bases"] :=
  discover_collision_amended collideFs2 ["/bases"] [] [] []
    (mkScanDocset "Same" "A.docset") (mkScanDocset "Same" "B.docset")
    collideFs2_scan rfl (by decide) (by decide)

end ZealMcp
